import Mathlib

/-! Verification of the metric-computation and ROC-curve engine of the
IDS_Evaluator repository, shallowly embedded from
`src/helper/helper_functions.cpp`.

Modelling conventions:
* C++ `double` values (scores, rates, thresholds, metric values) are
  modelled as rationals `ℚ`, so every arithmetic identity below is exact.
* `numeric_limits<double>::max()` is modelled by its exact value as a
  rational, `DBL_MAX`.
* The observable behaviour of `saveRocDataToCSV` is its returned AUC, the
  message it prints to `cerr` on an error path, and the `(threshold,fpr,tpr)`
  rows it writes to the CSV file; these are collected in `RocOutput`.
* `std::map<string,double>` results are modelled as association lists with
  pairwise-distinct string keys, queried through `List.lookup`.
* `std::sort` with comparator `a.first > b.first` produces a permutation of
  the input that is non-increasing in the score; we model it with
  `List.insertionSort` under `b.1 ≤ a.1`, one such permutation (the emitted
  curve only depends on the sorted multiset, not on the order within a tie
  group, so any such permutation is a faithful model).
-/

namespace IDSEval

/-- The exact value of `numeric_limits<double>::max()`,
the largest finite IEEE-754 binary64 number `(2^53 - 1) · 2^971`. -/
def DBL_MAX : ℚ := (2 ^ 53 - 1) * 2 ^ 971

/-- One row of the ROC CSV artifact: `(threshold, fpr, tpr)`. -/
structure RocPoint where
  threshold : ℚ
  fpr : ℚ
  tpr : ℚ
deriving DecidableEq

/-- State of the ROC sweep loop in `saveRocDataToCSV` (lines 81–106):
the points pushed onto the `fpr`/`tpr`/`thresholds` vectors by the loop,
and the final values of `true_positives`, `false_positives`, `prev_score`. -/
structure LoopState where
  pts : List RocPoint
  tp : ℚ
  fp : ℚ
  prev : ℚ
deriving DecidableEq

/-- The sweep loop of `saveRocDataToCSV` (lines 89–101): walk the sorted
pairs; when the score changes, emit the point
`(prev_score, false_positives/N, true_positives/P)` computed *before*
processing the current sample, and set `prev_score` to the new score;
then tally the current sample's label. -/
def rocLoop (P N : ℚ) : ℚ → ℚ → ℚ → List (ℚ × Bool) → LoopState
  | tp, fp, prev, [] => ⟨[], tp, fp, prev⟩
  | tp, fp, prev, (s, lab) :: rest =>
    if s ≠ prev then
      let r := rocLoop P N (if lab then tp + 1 else tp)
                 (if lab then fp else fp + 1) s rest
      ⟨⟨prev, fp / N, tp / P⟩ :: r.pts, r.tp, r.fp, r.prev⟩
    else
      rocLoop P N (if lab then tp + 1 else tp)
        (if lab then fp else fp + 1) prev rest

/-- Counting device for the sweep loop: the number of positions at which
the score differs from its predecessor (the predecessor of the first
element being `prev`), i.e. the number of points the loop emits. -/
def scoreChanges : ℚ → List ℚ → ℕ
  | _, [] => 0
  | prev, s :: rest => (if s = prev then 0 else 1) + scoreChanges s rest

/-- The trapezoidal-rule accumulation of `saveRocDataToCSV` (lines 109–112):
`auc += (fpr[i] - fpr[i-1]) * (tpr[i] + tpr[i-1]) / 2` over consecutive
point pairs. -/
def trapSum : List RocPoint → ℚ
  | p :: q :: rest => (q.fpr - p.fpr) * (q.tpr + p.tpr) / 2 + trapSum (q :: rest)
  | _ => 0

/-- Observable behaviour of `saveRocDataToCSV`: the message printed to
`cerr` (if an error path was taken), the ROC points written to the CSV,
and the returned AUC value. -/
structure RocOutput where
  err : Option String
  curve : List RocPoint
  auc : ℚ
deriving DecidableEq

/-- The sort order of `saveRocDataToCSV` (lines 63–65): pairs compare by
score, descending. -/
def scoreGe (a b : ℚ × Bool) : Prop := b.1 ≤ a.1

instance : DecidableRel scoreGe := fun a b => (inferInstance : Decidable (b.1 ≤ a.1))

instance : IsTotal (ℚ × Bool) scoreGe := ⟨fun a b => le_total b.1 a.1⟩

instance : IsTrans (ℚ × Bool) scoreGe := ⟨fun _ _ _ h1 h2 => le_trans h2 h1⟩

/-- The sorted score/label pairs of `saveRocDataToCSV` (lines 57–65):
pair up scores and labels and sort descending by score. -/
def sortedPairs (scores : List ℚ) (labels : List Bool) : List (ℚ × Bool) :=
  (scores.zip labels).insertionSort scoreGe

/-- The total positive count of `saveRocDataToCSV` (lines 70–74), a
`double` accumulated by adding `1.0` per positive pair of the sorted
list. -/
def posTotal (scores : List ℚ) (labels : List Bool) : ℚ :=
  ((sortedPairs scores labels).countP (fun p => p.2) : ℕ)

/-- The total negative count of `saveRocDataToCSV` (lines 70–74). -/
def negTotal (scores : List ℚ) (labels : List Bool) : ℚ :=
  ((sortedPairs scores labels).countP (fun p => !p.2) : ℕ)

/-- The ROC point sequence assembled by `saveRocDataToCSV` (lines 81–106)
on the non-error path: the fixed first point `(DBL_MAX, 0, 0)` pushed
before the loop, the points emitted by the sweep loop, and the final point
pushed after the loop. -/
def rocCurveOf (scores : List ℚ) (labels : List Bool) : List RocPoint :=
  let r := rocLoop (posTotal scores labels) (negTotal scores labels)
             0 0 DBL_MAX (sortedPairs scores labels)
  ⟨DBL_MAX, 0, 0⟩ ::
    (r.pts ++ [⟨r.prev, r.fp / negTotal scores labels, r.tp / posTotal scores labels⟩])

/-- Embedding of `saveRocDataToCSV` (lines 44–137), omitting the two display-only name
strings, which only determine the output filename.  Validates the input,
counts positives and negatives, runs the threshold sweep between the fixed
first point `(DBL_MAX, 0, 0)` and the final point, and integrates the AUC
by the trapezoidal rule. -/
def saveRocDataToCSV (scores : List ℚ) (labels : List Bool) : RocOutput :=
  if scores.length ≠ labels.length ∨ scores.isEmpty then
    { err := some "Error: Invalid input data (scores and labels must be same length and non-empty)",
      curve := [], auc := 0 }
  else if posTotal scores labels = 0 ∨ negTotal scores labels = 0 then
    { err := some "Error: Data must contain both positive and negative samples",
      curve := [], auc := 0 }
  else
    { err := none, curve := rocCurveOf scores labels,
      auc := trapSum (rocCurveOf scores labels) }

/-- Loop body of `calculateConfusionMatrix` (lines 156–164): classify the
sample as predicted-positive iff `score > threshold` (strict) and bump the
matching confusion bucket `(TP, FP, TN, FN)`. -/
def cmStep (threshold : ℚ) (acc : ℕ × ℕ × ℕ × ℕ) (p : ℚ × Bool) : ℕ × ℕ × ℕ × ℕ :=
  let predictedAnomaly := decide (threshold < p.1)
  let isAnomaly := p.2
  if isAnomaly && predictedAnomaly then (acc.1 + 1, acc.2.1, acc.2.2.1, acc.2.2.2)
  else if !isAnomaly && predictedAnomaly then (acc.1, acc.2.1 + 1, acc.2.2.1, acc.2.2.2)
  else if !isAnomaly && !predictedAnomaly then (acc.1, acc.2.1, acc.2.2.1 + 1, acc.2.2.2)
  else (acc.1, acc.2.1, acc.2.2.1, acc.2.2.2 + 1)

/-- Embedding of `calculateConfusionMatrix` (lines 148–167).  The C++ loop
runs over the indices of `scores` and reads `labels[i]`; for the
equal-length inputs on which it is defined this is the fold of `cmStep`
over the zipped list. -/
def calculateConfusionMatrix (scores : List ℚ) (labels : List Bool)
    (threshold : ℚ) : ℕ × ℕ × ℕ × ℕ :=
  (scores.zip labels).foldl (cmStep threshold) (0, 0, 0, 0)

/-- Embedding of `calculateMetrics` (lines 175–199): the four raw counts plus the
guarded ratios, as an association list keyed like the C++
`map<string,double>`. -/
def calculateMetrics (confusionMatrix : ℕ × ℕ × ℕ × ℕ) : List (String × ℚ) :=
  let tp : ℚ := confusionMatrix.1
  let fp : ℚ := confusionMatrix.2.1
  let tn : ℚ := confusionMatrix.2.2.1
  let fn : ℚ := confusionMatrix.2.2.2
  let total := tp + fp + tn + fn
  let accuracy := if total > 0 then (tp + tn) / total else 0
  let precision := if tp + fp > 0 then tp / (tp + fp) else 0
  let recall' := if tp + fn > 0 then tp / (tp + fn) else 0
  let specificity := if tn + fp > 0 then tn / (tn + fp) else 0
  let f1_score := if precision + recall' > 0 then
      2 * precision * recall' / (precision + recall') else 0
  [("true_positives", tp), ("false_positives", fp),
   ("true_negatives", tn), ("false_negatives", fn),
   ("accuracy", accuracy), ("precision", precision), ("recall", recall'),
   ("specificity", specificity), ("f1_score", f1_score)]

/-- The default-threshold block of `evaluateAlgorithm` (lines 227–246):
when the supplied threshold is negative, accumulate per-class score sums,
divide each by its class count only when that count is positive (an empty
class keeps its accumulator value `0.0`), and take the midpoint. -/
def resolveThreshold (scores : List ℚ) (labels : List Bool)
    (threshold : ℚ) : ℚ :=
  if threshold < 0 then
    let pairs := scores.zip labels
    let sumPos : ℚ := (pairs.filter (fun p => p.2)).foldl (fun a p => a + p.1) 0
    let sumNeg : ℚ := (pairs.filter (fun p => !p.2)).foldl (fun a p => a + p.1) 0
    let posCount : ℕ := pairs.countP (fun p => p.2)
    let negCount : ℕ := pairs.countP (fun p => !p.2)
    let avgPositiveScore := if 0 < posCount then sumPos / posCount else sumPos
    let avgNegativeScore := if 0 < negCount then sumNeg / negCount else sumNeg
    (avgPositiveScore + avgNegativeScore) / 2
  else threshold

/-- Embedding of `evaluateAlgorithm` (lines 214–263), omitting the two display-only
name strings.  Validates the input (returning the marker map
`{"error": 1.0}` on failure), resolves the threshold, computes the
confusion matrix and metrics, and appends the resolved threshold and the
AUC returned by `saveRocDataToCSV` to the result map. -/
def evaluateAlgorithm (scores : List ℚ) (labels : List Bool)
    (threshold : ℚ) : List (String × ℚ) :=
  if scores.length ≠ labels.length ∨ scores.isEmpty then [("error", 1)]
  else
    let resolved := resolveThreshold scores labels threshold
    let confMat := calculateConfusionMatrix scores labels resolved
    let results := calculateMetrics confMat
    let auc := (saveRocDataToCSV scores labels).auc
    results ++ [("threshold", resolved), ("auc", auc)]

/-! Spec-side definitions, written from the specification's own formulas
(§4.2 and §4.4) to be compared against the embedded code. -/

/-- Spec formula: `accuracy = (TP+TN)/total` if `total>0` else `0.0`. -/
def specAccuracy (tp fp tn fn : ℕ) : ℚ :=
  if tp + fp + tn + fn > 0 then ((tp : ℚ) + tn) / ((tp : ℚ) + fp + tn + fn) else 0

/-- Spec formula: `precision = TP/(TP+FP)` if `(TP+FP)>0` else `0.0`. -/
def specPrecision (tp fp : ℕ) : ℚ :=
  if tp + fp > 0 then (tp : ℚ) / ((tp : ℚ) + fp) else 0

/-- Spec formula: `recall = TP/(TP+FN)` if `(TP+FN)>0` else `0.0`. -/
def specRecall (tp fn : ℕ) : ℚ :=
  if tp + fn > 0 then (tp : ℚ) / ((tp : ℚ) + fn) else 0

/-- Spec formula: `specificity = TN/(TN+FP)` if `(TN+FP)>0` else `0.0`. -/
def specSpecificity (tn fp : ℕ) : ℚ :=
  if tn + fp > 0 then (tn : ℚ) / ((tn : ℚ) + fp) else 0

/-- Spec formula: `f1_score = 2·precision·recall/(precision+recall)` if
`(precision+recall)>0` else `0.0`. -/
def specF1 (tp fp fn : ℕ) : ℚ :=
  if specPrecision tp fp + specRecall tp fn > 0 then
    2 * specPrecision tp fp * specRecall tp fn /
      (specPrecision tp fp + specRecall tp fn)
  else 0

/-- Spec rule (§4.4): the mean score of the samples of one class, with an
empty class contributing `0.0`. -/
def specClassMean (scores : List ℚ) (labels : List Bool) (cls : Bool) : ℚ :=
  let xs := ((scores.zip labels).filter (fun p => p.2 == cls)).map (fun p => p.1)
  if xs.length = 0 then 0 else xs.sum / xs.length

/-! General list lemmas. -/

lemma pairwise_getLast {α : Type} {R : α → α → Prop} :
    ∀ {l : List α}, l.Pairwise R → ∀ {b : α}, l.getLast? = some b →
      ∀ x ∈ l, x = b ∨ R x b := by
  intro l
  induction l with
  | nil => intro _ b hb; simp at hb
  | cons a t ih =>
    intro hp b hb x hx
    rcases t with _ | ⟨c, t'⟩
    · simp at hb hx
      subst hb; subst hx; exact Or.inl rfl
    · rw [List.getLast?_cons_cons] at hb
      have hbmem : b ∈ c :: t' := List.mem_of_mem_getLast? (by rw [hb]; rfl)
      rcases List.mem_cons.1 hx with rfl | hx'
      · exact Or.inr ((List.pairwise_cons.1 hp).1 b hbmem)
      · exact ih (List.pairwise_cons.1 hp).2 hb x hx'

lemma chain'_le_head {l : List ℚ} {a : ℚ} (h : List.Chain' (· ≤ ·) (a :: l)) :
    ∀ x ∈ a :: l, a ≤ x := by
  rw [List.chain'_iff_pairwise] at h
  intro x hx
  rcases List.mem_cons.1 hx with rfl | hx'
  · exact le_refl x
  · exact (List.pairwise_cons.1 h).1 x hx'

lemma chain'_le_getLast {l : List ℚ} (h : List.Chain' (· ≤ ·) l) {b : ℚ}
    (hb : l.getLast? = some b) : ∀ x ∈ l, x ≤ b := by
  rw [List.chain'_iff_pairwise] at h
  intro x hx
  rcases pairwise_getLast h hb x hx with rfl | hlt
  · exact le_refl x
  · exact hlt

lemma chain'_le_weaken_head {l : List ℚ} {a b : ℚ}
    (h : List.Chain' (· ≤ ·) (a :: l)) (hba : b ≤ a) :
    List.Chain' (· ≤ ·) (b :: l) := by
  rw [List.chain'_cons'] at h ⊢
  exact ⟨fun y hy => le_trans hba (h.1 y hy), h.2⟩

lemma exists_zip_left : ∀ (scores : List ℚ) (labels : List Bool),
    scores.length = labels.length →
    ∀ x ∈ scores, ∃ b, (x, b) ∈ scores.zip labels := by
  intro scores
  induction scores with
  | nil => intro labels _ x hx; simp at hx
  | cons a t ih =>
    intro labels hlen x hx
    rcases labels with _ | ⟨b, bt⟩
    · simp at hlen
    · rcases List.mem_cons.1 hx with rfl | hx'
      · exact ⟨b, by simp [List.zip_cons_cons]⟩
      · obtain ⟨c, hc⟩ := ih bt (by simpa using hlen) x hx'
        exact ⟨c, by simp [List.zip_cons_cons]; right; exact hc⟩

lemma exists_zip_right : ∀ (scores : List ℚ) (labels : List Bool),
    scores.length = labels.length →
    ∀ b ∈ labels, ∃ x, (x, b) ∈ scores.zip labels := by
  intro scores
  induction scores with
  | nil => intro labels hlen b hb
           rcases labels with _ | _
           · simp at hb
           · simp at hlen
  | cons a t ih =>
    intro labels hlen b hb
    rcases labels with _ | ⟨c, ct⟩
    · simp at hb
    · rcases List.mem_cons.1 hb with rfl | hb'
      · exact ⟨a, by simp [List.zip_cons_cons]⟩
      · obtain ⟨x, hx⟩ := ih ct (by simpa using hlen) b hb'
        exact ⟨x, by simp [List.zip_cons_cons]; right; exact hx⟩

/-! Facts about the sweep loop `rocLoop`. -/

lemma rocLoop_tp (P N : ℚ) :
    ∀ (l : List (ℚ × Bool)) (tp fp prev : ℚ),
      (rocLoop P N tp fp prev l).tp = tp + (l.countP (fun p => p.2) : ℕ) := by
  intro l
  induction l with
  | nil => intro tp fp prev; simp [rocLoop]
  | cons q rest ih =>
    intro tp fp prev
    obtain ⟨s, lab⟩ := q
    by_cases hs : s = prev
    · rw [rocLoop, if_neg (by simpa using hs)]
      rw [ih]
      cases lab <;> simp [List.countP_cons] <;> push_cast <;> ring
    · rw [rocLoop, if_pos (by simpa using hs)]
      show (rocLoop P N _ _ s rest).tp = _
      rw [ih]
      cases lab <;> simp [List.countP_cons] <;> push_cast <;> ring

lemma rocLoop_fp (P N : ℚ) :
    ∀ (l : List (ℚ × Bool)) (tp fp prev : ℚ),
      (rocLoop P N tp fp prev l).fp = fp + (l.countP (fun p => !p.2) : ℕ) := by
  intro l
  induction l with
  | nil => intro tp fp prev; simp [rocLoop]
  | cons q rest ih =>
    intro tp fp prev
    obtain ⟨s, lab⟩ := q
    by_cases hs : s = prev
    · rw [rocLoop, if_neg (by simpa using hs)]
      rw [ih]
      cases lab <;> simp [List.countP_cons] <;> push_cast <;> ring
    · rw [rocLoop, if_pos (by simpa using hs)]
      show (rocLoop P N _ _ s rest).fp = _
      rw [ih]
      cases lab <;> simp [List.countP_cons] <;> push_cast <;> ring

lemma rocLoop_prev (P N : ℚ) :
    ∀ (l : List (ℚ × Bool)) (tp fp prev : ℚ),
      (rocLoop P N tp fp prev l).prev =
        ((l.getLast?).map (fun q => q.1)).getD prev := by
  intro l
  induction l with
  | nil => intro tp fp prev; simp [rocLoop]
  | cons q rest ih =>
    intro tp fp prev
    obtain ⟨s, lab⟩ := q
    have hlast : (((s, lab) :: rest).getLast?).map (fun q => q.1) =
        some (((rest.getLast?).map (fun q => q.1)).getD s) := by
      rcases rest with _ | ⟨c, t⟩
      · rfl
      · rw [List.getLast?_cons_cons]
        rcases hq : (c :: t).getLast? with _ | q2
        · simp at hq
        · simp
    by_cases hs : s = prev
    · rw [rocLoop, if_neg (by simpa using hs)]
      rw [ih, hlast, hs]
      simp
    · rw [rocLoop, if_pos (by simpa using hs)]
      show (rocLoop P N _ _ s rest).prev = _
      rw [ih, hlast]
      simp

lemma rocLoop_pts_length (P N : ℚ) :
    ∀ (l : List (ℚ × Bool)) (tp fp prev : ℚ),
      (rocLoop P N tp fp prev l).pts.length =
        scoreChanges prev (l.map (fun q => q.1)) := by
  intro l
  induction l with
  | nil => intro tp fp prev; simp [rocLoop, scoreChanges]
  | cons q rest ih =>
    intro tp fp prev
    obtain ⟨s, lab⟩ := q
    by_cases hs : s = prev
    · rw [rocLoop, if_neg (by simpa using hs)]
      rw [ih]
      simp [scoreChanges, hs]
    · rw [rocLoop, if_pos (by simpa using hs)]
      show ((⟨prev, fp / N, tp / P⟩ : RocPoint) :: (rocLoop P N _ _ s rest).pts).length = _
      simp [ih, scoreChanges, hs]
      ring

lemma rocLoop_const (P N : ℚ) :
    ∀ (l : List (ℚ × Bool)) (s : ℚ), (∀ q ∈ l, q.1 = s) →
      ∀ tp fp : ℚ, rocLoop P N tp fp s l =
        ⟨[], tp + (l.countP (fun p => p.2) : ℕ),
          fp + (l.countP (fun p => !p.2) : ℕ), s⟩ := by
  intro l
  induction l with
  | nil => intro s _ tp fp; simp [rocLoop]
  | cons q rest ih =>
    intro s hall tp fp
    obtain ⟨s', lab⟩ := q
    have hs' : s' = s := hall (s', lab) (List.mem_cons_self _ _)
    subst hs'
    rw [rocLoop, if_neg (by simp)]
    rw [ih s' (fun q hq => hall q (List.mem_cons_of_mem _ hq))]
    cases lab <;> simp [List.countP_cons] <;> ring

lemma rocLoop_fpr_chain (P N : ℚ) (hN : 0 ≤ N) :
    ∀ (l : List (ℚ × Bool)) (tp fp prev : ℚ),
      List.Chain' (· ≤ ·)
        ((fp / N) :: ((rocLoop P N tp fp prev l).pts.map RocPoint.fpr
          ++ [(rocLoop P N tp fp prev l).fp / N])) := by
  intro l
  induction l with
  | nil => intro tp fp prev; simp [rocLoop]
  | cons q rest ih =>
    intro tp fp prev
    obtain ⟨s, lab⟩ := q
    have hstep : fp / N ≤ (if lab then fp else fp + 1) / N := by
      rw [div_eq_mul_inv, div_eq_mul_inv]
      refine mul_le_mul_of_nonneg_right ?_ (inv_nonneg.2 hN)
      cases lab <;> simp <;> linarith
    by_cases hs : s = prev
    · rw [rocLoop, if_neg (by simpa using hs)]
      exact chain'_le_weaken_head (ih _ _ _) hstep
    · rw [rocLoop, if_pos (by simpa using hs)]
      show List.Chain' (· ≤ ·) ((fp / N) ::
        (((⟨prev, fp / N, tp / P⟩ : RocPoint) :: (rocLoop P N _ _ s rest).pts).map RocPoint.fpr
          ++ [(rocLoop P N _ _ s rest).fp / N]))
      rw [List.map_cons]
      rw [List.cons_append, List.chain'_cons]
      exact ⟨le_refl _, chain'_le_weaken_head (ih _ _ _) hstep⟩

lemma rocLoop_tpr_chain (P N : ℚ) (hP : 0 ≤ P) :
    ∀ (l : List (ℚ × Bool)) (tp fp prev : ℚ),
      List.Chain' (· ≤ ·)
        ((tp / P) :: ((rocLoop P N tp fp prev l).pts.map RocPoint.tpr
          ++ [(rocLoop P N tp fp prev l).tp / P])) := by
  intro l
  induction l with
  | nil => intro tp fp prev; simp [rocLoop]
  | cons q rest ih =>
    intro tp fp prev
    obtain ⟨s, lab⟩ := q
    have hstep : tp / P ≤ (if lab then tp + 1 else tp) / P := by
      rw [div_eq_mul_inv, div_eq_mul_inv]
      refine mul_le_mul_of_nonneg_right ?_ (inv_nonneg.2 hP)
      cases lab <;> simp <;> linarith
    by_cases hs : s = prev
    · rw [rocLoop, if_neg (by simpa using hs)]
      exact chain'_le_weaken_head (ih _ _ _) hstep
    · rw [rocLoop, if_pos (by simpa using hs)]
      show List.Chain' (· ≤ ·) ((tp / P) ::
        (((⟨prev, fp / N, tp / P⟩ : RocPoint) :: (rocLoop P N _ _ s rest).pts).map RocPoint.tpr
          ++ [(rocLoop P N _ _ s rest).tp / P]))
      rw [List.map_cons]
      rw [List.cons_append, List.chain'_cons]
      exact ⟨le_refl _, chain'_le_weaken_head (ih _ _ _) hstep⟩

/-! Facts about the sorted pair list and the input-validation guards. -/

lemma sortedPairs_perm (scores : List ℚ) (labels : List Bool) :
    (sortedPairs scores labels).Perm (scores.zip labels) :=
  List.perm_insertionSort scoreGe (scores.zip labels)

lemma sortedPairs_sorted (scores : List ℚ) (labels : List Bool) :
    (sortedPairs scores labels).Pairwise scoreGe :=
  List.sorted_insertionSort scoreGe (scores.zip labels)

lemma sortedPairs_length (scores : List ℚ) (labels : List Bool)
    (hlen : scores.length = labels.length) :
    (sortedPairs scores labels).length = scores.length := by
  rw [(sortedPairs_perm scores labels).length_eq, List.length_zip, hlen, min_self]

lemma sortedPairs_ne_nil (scores : List ℚ) (labels : List Bool)
    (hlen : scores.length = labels.length) (hne : scores ≠ []) :
    sortedPairs scores labels ≠ [] := by
  intro h
  have := sortedPairs_length scores labels hlen
  rw [h] at this
  exact hne (List.length_eq_zero.1 this.symm)

lemma posTotal_pos (scores : List ℚ) (labels : List Bool)
    (hlen : scores.length = labels.length) (hpos : true ∈ labels) :
    0 < posTotal scores labels := by
  have hne : (sortedPairs scores labels).countP (fun p => p.2) ≠ 0 := by
    intro h0
    obtain ⟨x, hx⟩ := exists_zip_right scores labels hlen true hpos
    have hx' : (x, true) ∈ sortedPairs scores labels :=
      (List.Perm.mem_iff (sortedPairs_perm scores labels)).2 hx
    have := List.countP_eq_zero.1 h0 _ hx'
    simp at this
  unfold posTotal
  exact_mod_cast Nat.pos_of_ne_zero hne

lemma negTotal_pos (scores : List ℚ) (labels : List Bool)
    (hlen : scores.length = labels.length) (hneg : false ∈ labels) :
    0 < negTotal scores labels := by
  have hne : (sortedPairs scores labels).countP (fun p => !p.2) ≠ 0 := by
    intro h0
    obtain ⟨x, hx⟩ := exists_zip_right scores labels hlen false hneg
    have hx' : (x, false) ∈ sortedPairs scores labels :=
      (List.Perm.mem_iff (sortedPairs_perm scores labels)).2 hx
    have := List.countP_eq_zero.1 h0 _ hx'
    simp at this
  unfold negTotal
  exact_mod_cast Nat.pos_of_ne_zero hne

lemma posTotal_eq_fold_tp (scores : List ℚ) (labels : List Bool) :
    (rocLoop (posTotal scores labels) (negTotal scores labels)
      0 0 DBL_MAX (sortedPairs scores labels)).tp = posTotal scores labels := by
  rw [rocLoop_tp]
  rw [zero_add]
  rfl

lemma negTotal_eq_fold_fp (scores : List ℚ) (labels : List Bool) :
    (rocLoop (posTotal scores labels) (negTotal scores labels)
      0 0 DBL_MAX (sortedPairs scores labels)).fp = negTotal scores labels := by
  rw [rocLoop_fp]
  rw [zero_add]
  rfl

lemma saveRoc_valid (scores : List ℚ) (labels : List Bool)
    (hlen : scores.length = labels.length) (hne : scores ≠ [])
    (hP : 0 < posTotal scores labels) (hN : 0 < negTotal scores labels) :
    saveRocDataToCSV scores labels =
      ⟨none, rocCurveOf scores labels, trapSum (rocCurveOf scores labels)⟩ := by
  have h1 : ¬(scores.length ≠ labels.length ∨ scores.isEmpty = true) := by
    rw [not_or]
    constructor
    · simpa using hlen
    · simpa [List.isEmpty_iff] using hne
  have h2 : ¬(posTotal scores labels = 0 ∨ negTotal scores labels = 0) := by
    rw [not_or]
    exact ⟨ne_of_gt hP, ne_of_gt hN⟩
  rw [saveRocDataToCSV, if_neg h1, if_neg h2]

lemma sorted_getLast_min (l : List (ℚ × Bool)) (hs : l.Pairwise scoreGe)
    (q : ℚ × Bool) (hq : l.getLast? = some q) : ∀ x ∈ l, q.1 ≤ x.1 := by
  intro x hx
  rcases pairwise_getLast hs hq x hx with rfl | h
  · exact le_refl _
  · exact h

lemma scoreChanges_card : ∀ (l : List ℚ), l.Pairwise (fun a b => b ≤ a) →
    ∀ p : ℚ, (∀ y ∈ l, y ≤ p) → scoreChanges p l + 1 = (p :: l).toFinset.card := by
  intro l
  induction l with
  | nil => intro _ p _; simp [scoreChanges]
  | cons x xs ih =>
    intro hs p hp
    have hx_le : ∀ y ∈ xs, y ≤ x := fun y hy => (List.pairwise_cons.1 hs).1 y hy
    have ihx := ih (List.pairwise_cons.1 hs).2 x hx_le
    by_cases hxp : x = p
    · subst hxp
      simp only [scoreChanges, if_pos rfl, zero_add]
      rw [List.toFinset_cons, List.toFinset_cons, Finset.insert_idem,
        ← List.toFinset_cons]
      simpa using ihx
    · simp only [scoreChanges, if_neg hxp]
      have hpx : p ∉ (x :: xs).toFinset := by
        rw [List.mem_toFinset]
        intro hmem
        rcases List.mem_cons.1 hmem with rfl | hmem'
        · exact hxp rfl
        · exact hxp (le_antisymm (hp x (List.mem_cons_self _ _)) (hx_le p hmem'))
      rw [List.toFinset_cons, Finset.card_insert_of_not_mem hpx]
      omega

/-! Shape of the ROC curve on valid mixed-class inputs. -/

lemma rocCurve_unfold (scores : List ℚ) (labels : List Bool) :
    rocCurveOf scores labels =
      ⟨DBL_MAX, 0, 0⟩ ::
        ((rocLoop (posTotal scores labels) (negTotal scores labels)
            0 0 DBL_MAX (sortedPairs scores labels)).pts ++
          [⟨(rocLoop (posTotal scores labels) (negTotal scores labels)
                0 0 DBL_MAX (sortedPairs scores labels)).prev,
            (rocLoop (posTotal scores labels) (negTotal scores labels)
                0 0 DBL_MAX (sortedPairs scores labels)).fp / negTotal scores labels,
            (rocLoop (posTotal scores labels) (negTotal scores labels)
                0 0 DBL_MAX (sortedPairs scores labels)).tp / posTotal scores labels⟩]) :=
  rfl

lemma cons_append_getLast? {α : Type} (a b : α) (l : List α) :
    (a :: (l ++ [b])).getLast? = some b := by
  rw [show a :: (l ++ [b]) = (a :: l) ++ [b] from rfl]
  exact List.getLast?_concat _

lemma scores_ne_nil_of_mem_labels (scores : List ℚ) (labels : List Bool)
    (hlen : scores.length = labels.length) {b : Bool} (hb : b ∈ labels) :
    scores ≠ [] := by
  intro h
  rw [h] at hlen
  rw [List.length_eq_zero.1 hlen.symm] at hb
  simp at hb

lemma rocCurve_facts (scores : List ℚ) (labels : List Bool)
    (hlen : scores.length = labels.length)
    (hpos : true ∈ labels) (hneg : false ∈ labels) :
    (rocCurveOf scores labels).head? = some ⟨DBL_MAX, 0, 0⟩ ∧
    (∃ m : ℚ, (rocCurveOf scores labels).getLast? = some ⟨m, 1, 1⟩ ∧
        m ∈ scores ∧ ∀ x ∈ scores, m ≤ x) ∧
    List.Chain' (· ≤ ·) ((rocCurveOf scores labels).map RocPoint.fpr) ∧
    List.Chain' (· ≤ ·) ((rocCurveOf scores labels).map RocPoint.tpr) ∧
    ∀ q ∈ rocCurveOf scores labels,
      0 ≤ q.fpr ∧ q.fpr ≤ 1 ∧ 0 ≤ q.tpr ∧ q.tpr ≤ 1 := by
  have hne : scores ≠ [] := scores_ne_nil_of_mem_labels scores labels hlen hpos
  have hP := posTotal_pos scores labels hlen hpos
  have hN := negTotal_pos scores labels hlen hneg
  have hfp1 : (rocLoop (posTotal scores labels) (negTotal scores labels)
      0 0 DBL_MAX (sortedPairs scores labels)).fp / negTotal scores labels = 1 := by
    rw [negTotal_eq_fold_fp]
    exact div_self (ne_of_gt hN)
  have htp1 : (rocLoop (posTotal scores labels) (negTotal scores labels)
      0 0 DBL_MAX (sortedPairs scores labels)).tp / posTotal scores labels = 1 := by
    rw [posTotal_eq_fold_tp]
    exact div_self (ne_of_gt hP)
  have hmapf : (rocCurveOf scores labels).map RocPoint.fpr =
      0 :: ((rocLoop (posTotal scores labels) (negTotal scores labels)
          0 0 DBL_MAX (sortedPairs scores labels)).pts.map RocPoint.fpr ++
        [(rocLoop (posTotal scores labels) (negTotal scores labels)
            0 0 DBL_MAX (sortedPairs scores labels)).fp / negTotal scores labels]) := by
    rw [rocCurve_unfold]
    simp
  have hmapt : (rocCurveOf scores labels).map RocPoint.tpr =
      0 :: ((rocLoop (posTotal scores labels) (negTotal scores labels)
          0 0 DBL_MAX (sortedPairs scores labels)).pts.map RocPoint.tpr ++
        [(rocLoop (posTotal scores labels) (negTotal scores labels)
            0 0 DBL_MAX (sortedPairs scores labels)).tp / posTotal scores labels]) := by
    rw [rocCurve_unfold]
    simp
  have hchainf : List.Chain' (· ≤ ·) ((rocCurveOf scores labels).map RocPoint.fpr) := by
    rw [hmapf]
    have h := rocLoop_fpr_chain (posTotal scores labels) (negTotal scores labels)
      (le_of_lt hN) (sortedPairs scores labels) 0 0 DBL_MAX
    rwa [zero_div] at h
  have hchaint : List.Chain' (· ≤ ·) ((rocCurveOf scores labels).map RocPoint.tpr) := by
    rw [hmapt]
    have h := rocLoop_tpr_chain (posTotal scores labels) (negTotal scores labels)
      (le_of_lt hP) (sortedPairs scores labels) 0 0 DBL_MAX
    rwa [zero_div] at h
  have hflast : ((rocCurveOf scores labels).map RocPoint.fpr).getLast? = some 1 := by
    rw [hmapf, hfp1]
    exact cons_append_getLast? _ _ _
  have htlast : ((rocCurveOf scores labels).map RocPoint.tpr).getLast? = some 1 := by
    rw [hmapt, htp1]
    exact cons_append_getLast? _ _ _
  refine ⟨by rw [rocCurve_unfold]; rfl, ?_, hchainf, hchaint, ?_⟩
  · -- last point
    obtain ⟨q, hq⟩ : ∃ q, (sortedPairs scores labels).getLast? = some q := by
      rcases hq : (sortedPairs scores labels).getLast? with _ | q
      · exact absurd (List.getLast?_eq_none_iff.mp hq)
          (sortedPairs_ne_nil scores labels hlen hne)
      · exact ⟨q, rfl⟩
    have hprev : (rocLoop (posTotal scores labels) (negTotal scores labels)
        0 0 DBL_MAX (sortedPairs scores labels)).prev = q.1 := by
      rw [rocLoop_prev, hq]
      rfl
    refine ⟨q.1, ?_, ?_, ?_⟩
    · rw [rocCurve_unfold, cons_append_getLast?, hprev, hfp1, htp1]
    · have hqmem : q ∈ sortedPairs scores labels :=
        List.mem_of_mem_getLast? (by rw [hq]; rfl)
      have : q ∈ scores.zip labels := (sortedPairs_perm scores labels).mem_iff.1 hqmem
      exact (List.of_mem_zip this).1
    · intro x hx
      obtain ⟨b, hb⟩ := exists_zip_left scores labels hlen x hx
      have hmem : (x, b) ∈ sortedPairs scores labels :=
        (sortedPairs_perm scores labels).mem_iff.2 hb
      exact sorted_getLast_min (sortedPairs scores labels)
        (sortedPairs_sorted scores labels) q hq (x, b) hmem
  · -- bounds
    intro q hq
    have hqf : q.fpr ∈ (rocCurveOf scores labels).map RocPoint.fpr :=
      List.mem_map_of_mem RocPoint.fpr hq
    have hqt : q.tpr ∈ (rocCurveOf scores labels).map RocPoint.tpr :=
      List.mem_map_of_mem RocPoint.tpr hq
    refine ⟨?_, ?_, ?_, ?_⟩
    · have := chain'_le_head (hmapf ▸ hchainf) q.fpr (hmapf ▸ hqf)
      exact this
    · exact chain'_le_getLast hchainf hflast q.fpr hqf
    · have := chain'_le_head (hmapt ▸ hchaint) q.tpr (hmapt ▸ hqt)
      exact this
    · exact chain'_le_getLast hchaint htlast q.tpr hqt

/-! Bounds on the trapezoidal sum. -/

lemma trapSum_nonneg : ∀ (l : List RocPoint),
    List.Chain' (· ≤ ·) (l.map RocPoint.fpr) →
    (∀ q ∈ l, 0 ≤ q.tpr) → 0 ≤ trapSum l := by
  intro l
  induction l with
  | nil => intro _ _; simp [trapSum]
  | cons p rest ih =>
    intro hchain hb
    rcases rest with _ | ⟨q, rest'⟩
    · simp [trapSum]
    · rw [trapSum]
      rw [List.map_cons, List.map_cons] at hchain
      have hpq : p.fpr ≤ q.fpr := (List.chain'_cons.1 hchain).1
      have hchain' : List.Chain' (· ≤ ·) ((q :: rest').map RocPoint.fpr) := by
        rw [List.map_cons]
        exact (List.chain'_cons.1 hchain).2
      have hterm : 0 ≤ (q.fpr - p.fpr) * (q.tpr + p.tpr) / 2 := by
        apply div_nonneg _ (by norm_num)
        apply mul_nonneg (sub_nonneg.2 hpq)
        have h1 := hb p (List.mem_cons_self _ _)
        have h2 := hb q (List.mem_cons_of_mem _ (List.mem_cons_self _ _))
        linarith
      have hrest := ih hchain' (fun x hx => hb x (List.mem_cons_of_mem _ hx))
      linarith

lemma trapSum_le : ∀ (l : List RocPoint) (p b : RocPoint),
    List.Chain' (· ≤ ·) ((p :: l).map RocPoint.fpr) →
    (∀ q ∈ p :: l, q.tpr ≤ 1) →
    (p :: l).getLast? = some b →
    trapSum (p :: l) ≤ b.fpr - p.fpr := by
  intro l
  induction l with
  | nil =>
    intro p b _ _ hb
    simp at hb
    subst hb
    simp [trapSum]
  | cons q rest ih =>
    intro p b hchain h1 hb
    rw [trapSum]
    rw [List.map_cons, List.map_cons] at hchain
    have hpq : p.fpr ≤ q.fpr := (List.chain'_cons.1 hchain).1
    have hchain' : List.Chain' (· ≤ ·) ((q :: rest).map RocPoint.fpr) := by
      rw [List.map_cons]
      exact (List.chain'_cons.1 hchain).2
    have hb' : (q :: rest).getLast? = some b := by
      rw [List.getLast?_cons_cons] at hb
      exact hb
    have ih' := ih q b hchain' (fun x hx => h1 x (List.mem_cons_of_mem _ hx)) hb'
    have hterm : (q.fpr - p.fpr) * (q.tpr + p.tpr) / 2 ≤ q.fpr - p.fpr := by
      have h2 : q.tpr + p.tpr ≤ 2 := by
        have ha := h1 q (List.mem_cons_of_mem _ (List.mem_cons_self _ _))
        have hc := h1 p (List.mem_cons_self _ _)
        linarith
      have hsub : 0 ≤ q.fpr - p.fpr := sub_nonneg.2 hpq
      have hmul : (q.fpr - p.fpr) * (q.tpr + p.tpr) ≤ (q.fpr - p.fpr) * 2 :=
        mul_le_mul_of_nonneg_left h2 hsub
      have hdiv : (q.fpr - p.fpr) * (q.tpr + p.tpr) / 2 ≤ (q.fpr - p.fpr) * 2 / 2 := by
        rw [div_eq_mul_inv, div_eq_mul_inv]
        exact mul_le_mul_of_nonneg_right hmul (by norm_num)
      calc (q.fpr - p.fpr) * (q.tpr + p.tpr) / 2
          ≤ (q.fpr - p.fpr) * 2 / 2 := hdiv
        _ = q.fpr - p.fpr := by ring
    linarith

/-! Claim theorems. -/

/-- C2: for every equal-length input containing at least one positive and
one negative label, the emitted ROC curve starts at `(DBL_MAX, 0, 0)`
(the original system's `+infinity` sentinel is the maximum finite double),
ends at `(minimum input score, 1, 1)`, its `fpr` and `tpr` sequences are
each monotonically non-decreasing, and every `fpr`/`tpr` value lies in
`[0, 1]`. -/
theorem roc_curve_invariants (scores : List ℚ) (labels : List Bool)
    (hlen : scores.length = labels.length)
    (hpos : true ∈ labels) (hneg : false ∈ labels) :
    (saveRocDataToCSV scores labels).curve.head? = some ⟨DBL_MAX, 0, 0⟩ ∧
    (∃ m : ℚ, (saveRocDataToCSV scores labels).curve.getLast? = some ⟨m, 1, 1⟩ ∧
        m ∈ scores ∧ ∀ x ∈ scores, m ≤ x) ∧
    List.Chain' (· ≤ ·) ((saveRocDataToCSV scores labels).curve.map RocPoint.fpr) ∧
    List.Chain' (· ≤ ·) ((saveRocDataToCSV scores labels).curve.map RocPoint.tpr) ∧
    ∀ q ∈ (saveRocDataToCSV scores labels).curve,
      0 ≤ q.fpr ∧ q.fpr ≤ 1 ∧ 0 ≤ q.tpr ∧ q.tpr ≤ 1 := by
  have hne := scores_ne_nil_of_mem_labels scores labels hlen hpos
  have hsave := saveRoc_valid scores labels hlen hne
    (posTotal_pos scores labels hlen hpos) (negTotal_pos scores labels hlen hneg)
  rw [hsave]
  exact rocCurve_facts scores labels hlen hpos hneg

/-- Witness for C2 at `scores = [2, 1]`, `labels = [true, false]`. -/
theorem roc_curve_invariants_witness :
    (saveRocDataToCSV [2, 1] [true, false]).curve.head? = some ⟨DBL_MAX, 0, 0⟩ ∧
    (∃ m : ℚ, (saveRocDataToCSV [2, 1] [true, false]).curve.getLast? = some ⟨m, 1, 1⟩ ∧
        m ∈ [(2 : ℚ), 1] ∧ ∀ x ∈ [(2 : ℚ), 1], m ≤ x) ∧
    List.Chain' (· ≤ ·) ((saveRocDataToCSV [2, 1] [true, false]).curve.map RocPoint.fpr) ∧
    List.Chain' (· ≤ ·) ((saveRocDataToCSV [2, 1] [true, false]).curve.map RocPoint.tpr) ∧
    ∀ q ∈ (saveRocDataToCSV [2, 1] [true, false]).curve,
      0 ≤ q.fpr ∧ q.fpr ≤ 1 ∧ 0 ≤ q.tpr ∧ q.tpr ≤ 1 :=
  roc_curve_invariants [2, 1] [true, false] rfl (by simp) (by simp)

/-- C3: for every equal-length input containing at least one positive and
one negative label, the AUC value returned by the ROC stage equals the
trapezoidal sum over the emitted ROC points, and lies in `[0, 1]`. -/
theorem auc_trapezoidal_in_unit_range (scores : List ℚ) (labels : List Bool)
    (hlen : scores.length = labels.length)
    (hpos : true ∈ labels) (hneg : false ∈ labels) :
    (saveRocDataToCSV scores labels).auc =
      trapSum ((saveRocDataToCSV scores labels).curve) ∧
    0 ≤ (saveRocDataToCSV scores labels).auc ∧
    (saveRocDataToCSV scores labels).auc ≤ 1 := by
  have hne := scores_ne_nil_of_mem_labels scores labels hlen hpos
  have hsave := saveRoc_valid scores labels hlen hne
    (posTotal_pos scores labels hlen hpos) (negTotal_pos scores labels hlen hneg)
  rw [hsave]
  obtain ⟨hhead, ⟨m, hlast, hmem, hmin⟩, hchainf, hchaint, hbounds⟩ :=
    rocCurve_facts scores labels hlen hpos hneg
  refine ⟨rfl, ?_, ?_⟩
  · exact trapSum_nonneg _ hchainf (fun q hq => (hbounds q hq).2.2.1)
  · have hcu := rocCurve_unfold scores labels
    rw [hcu] at hchainf hlast hbounds ⊢
    have h := trapSum_le _ _ _ hchainf
      (fun q hq => (hbounds q hq).2.2.2) hlast
    simpa using h

/-- Witness for C3 at `scores = [2, 1]`, `labels = [true, false]`. -/
theorem auc_trapezoidal_in_unit_range_witness :
    (saveRocDataToCSV [2, 1] [true, false]).auc =
      trapSum ((saveRocDataToCSV [2, 1] [true, false]).curve) ∧
    0 ≤ (saveRocDataToCSV [2, 1] [true, false]).auc ∧
    (saveRocDataToCSV [2, 1] [true, false]).auc ≤ 1 :=
  auc_trapezoidal_in_unit_range [2, 1] [true, false] rfl (by simp) (by simp)

lemma map_fst_sortedPairs (scores : List ℚ) (labels : List Bool)
    (hlen : scores.length = labels.length) :
    ((sortedPairs scores labels).map (fun q => q.1)).Perm scores := by
  have hperm := (sortedPairs_perm scores labels).map (fun q : ℚ × Bool => q.1)
  have hmfz : (scores.zip labels).map (fun q : ℚ × Bool => q.1) = scores :=
    List.map_fst_zip scores labels (le_of_eq hlen)
  rwa [hmfz] at hperm

lemma rocCurve_count (scores : List ℚ) (labels : List Bool)
    (hlen : scores.length = labels.length)
    (hpos : true ∈ labels) (hneg : false ∈ labels)
    (hmax : ∀ x ∈ scores, x < DBL_MAX) :
    (rocCurveOf scores labels).head? = some ⟨DBL_MAX, 0, 0⟩ ∧
    (rocCurveOf scores labels)[1]? = some ⟨DBL_MAX, 0, 0⟩ ∧
    (rocCurveOf scores labels).length = scores.toFinset.card + 2 := by
  have hne := scores_ne_nil_of_mem_labels scores labels hlen hpos
  have hspne := sortedPairs_ne_nil scores labels hlen hne
  have hhead2 : ∃ t, (rocLoop (posTotal scores labels) (negTotal scores labels)
      0 0 DBL_MAX (sortedPairs scores labels)).pts = ⟨DBL_MAX, 0, 0⟩ :: t := by
    rcases hsp : sortedPairs scores labels with _ | ⟨⟨s0, lab⟩, rest⟩
    · exact absurd hsp hspne
    · have hs0 : s0 ∈ scores := by
        have hm : (s0, lab) ∈ sortedPairs scores labels := by
          rw [hsp]
          exact List.mem_cons_self _ _
        exact (List.of_mem_zip ((sortedPairs_perm scores labels).mem_iff.1 hm)).1
      have hs0ne : s0 ≠ DBL_MAX := ne_of_lt (hmax s0 hs0)
      rw [rocLoop, if_pos (by simpa using hs0ne)]
      exact ⟨_, by rw [zero_div, zero_div]⟩
  have hlength : (rocLoop (posTotal scores labels) (negTotal scores labels)
      0 0 DBL_MAX (sortedPairs scores labels)).pts.length = scores.toFinset.card := by
    rw [rocLoop_pts_length]
    have hsorted : ((sortedPairs scores labels).map (fun q => q.1)).Pairwise
        (fun a b : ℚ => b ≤ a) :=
      List.Pairwise.map _ (fun _ _ h => h) (sortedPairs_sorted scores labels)
    have hmem_scores : ∀ y ∈ (sortedPairs scores labels).map (fun q : ℚ × Bool => q.1),
        y ∈ scores := by
      intro y hy
      obtain ⟨q, hqmem, rfl⟩ := List.mem_map.1 hy
      exact (List.of_mem_zip ((sortedPairs_perm scores labels).mem_iff.1 hqmem)).1
    have hbound : ∀ y ∈ (sortedPairs scores labels).map (fun q : ℚ × Bool => q.1),
        y ≤ DBL_MAX := fun y hy => le_of_lt (hmax y (hmem_scores y hy))
    have hcard := scoreChanges_card _ hsorted DBL_MAX hbound
    have hnotmem : DBL_MAX ∉ ((sortedPairs scores labels).map (fun q : ℚ × Bool => q.1)).toFinset := by
      rw [List.mem_toFinset]
      intro hmem
      exact absurd (hmax _ (hmem_scores _ hmem)) (lt_irrefl _)
    rw [List.toFinset_cons, Finset.card_insert_of_not_mem hnotmem] at hcard
    have htof : ((sortedPairs scores labels).map (fun q : ℚ × Bool => q.1)).toFinset =
        scores.toFinset :=
      List.toFinset_eq_of_perm _ _ (map_fst_sortedPairs scores labels hlen)
    rw [htof] at hcard
    omega
  rw [rocCurve_unfold]
  obtain ⟨t, hpts⟩ := hhead2
  refine ⟨rfl, ?_, ?_⟩
  · rw [hpts, List.cons_append]
    simp
  · rw [List.length_cons, List.length_append, hlength]
    simp

/-- C10: for every valid mixed-class input whose scores all lie strictly
below the largest finite double, the emitted curve begins with two
identical consecutive points, both `(DBL_MAX, 0, 0)` — one pushed before
the sweep loop and a second emitted at the first sorted sample — and the
curve has exactly (number of distinct score values) + 2 points. -/
theorem roc_duplicate_first_point (scores : List ℚ) (labels : List Bool)
    (hlen : scores.length = labels.length)
    (hpos : true ∈ labels) (hneg : false ∈ labels)
    (hmax : ∀ x ∈ scores, x < DBL_MAX) :
    (saveRocDataToCSV scores labels).curve.head? = some ⟨DBL_MAX, 0, 0⟩ ∧
    (saveRocDataToCSV scores labels).curve[1]? = some ⟨DBL_MAX, 0, 0⟩ ∧
    (saveRocDataToCSV scores labels).curve.length = scores.toFinset.card + 2 := by
  have hne := scores_ne_nil_of_mem_labels scores labels hlen hpos
  have hsave := saveRoc_valid scores labels hlen hne
    (posTotal_pos scores labels hlen hpos) (negTotal_pos scores labels hlen hneg)
  rw [hsave]
  exact rocCurve_count scores labels hlen hpos hneg hmax

/-- Witness for C10 at `scores = [3, 1, 2]`, `labels = [true, false, true]`. -/
theorem roc_duplicate_first_point_witness :
    (saveRocDataToCSV [3, 1, 2] [true, false, true]).curve.head? = some ⟨DBL_MAX, 0, 0⟩ ∧
    (saveRocDataToCSV [3, 1, 2] [true, false, true]).curve[1]? = some ⟨DBL_MAX, 0, 0⟩ ∧
    (saveRocDataToCSV [3, 1, 2] [true, false, true]).curve.length =
      ([3, 1, 2] : List ℚ).toFinset.card + 2 :=
  roc_duplicate_first_point [3, 1, 2] [true, false, true] rfl (by simp) (by simp)
    (by intro x hx; fin_cases hx <;> norm_num [DBL_MAX])

lemma rocCurve_all_tied (scores : List ℚ) (labels : List Bool) (s : ℚ)
    (hlen : scores.length = labels.length)
    (hall : ∀ x ∈ scores, x = s) (hs : s ≠ DBL_MAX)
    (hpos : true ∈ labels) (hneg : false ∈ labels) :
    rocCurveOf scores labels = [⟨DBL_MAX, 0, 0⟩, ⟨DBL_MAX, 0, 0⟩, ⟨s, 1, 1⟩] := by
  have hne := scores_ne_nil_of_mem_labels scores labels hlen hpos
  have hspne := sortedPairs_ne_nil scores labels hlen hne
  have hP := posTotal_pos scores labels hlen hpos
  have hN := negTotal_pos scores labels hlen hneg
  have hmem_s : ∀ q ∈ sortedPairs scores labels, q.1 = s := by
    intro q hq
    obtain ⟨a, b⟩ := q
    exact hall a ((List.of_mem_zip ((sortedPairs_perm scores labels).mem_iff.1 hq)).1)
  have hfp := negTotal_eq_fold_fp scores labels
  have htp := posTotal_eq_fold_tp scores labels
  have hprev : (rocLoop (posTotal scores labels) (negTotal scores labels)
      0 0 DBL_MAX (sortedPairs scores labels)).prev = s := by
    rw [rocLoop_prev]
    rcases hq : (sortedPairs scores labels).getLast? with _ | q
    · exact absurd (List.getLast?_eq_none_iff.mp hq) hspne
    · have hqm : q ∈ sortedPairs scores labels :=
        List.mem_of_mem_getLast? (by rw [hq]; rfl)
      simp [hmem_s q hqm]
  have hpts : (rocLoop (posTotal scores labels) (negTotal scores labels)
      0 0 DBL_MAX (sortedPairs scores labels)).pts = [⟨DBL_MAX, 0, 0⟩] := by
    rcases hsp : sortedPairs scores labels with _ | ⟨⟨s0, lab⟩, rest⟩
    · exact absurd hsp hspne
    · have hs0 : s0 = s := hmem_s (s0, lab) (by rw [hsp]; exact List.mem_cons_self _ _)
      subst hs0
      have hrest : ∀ q ∈ rest, q.1 = s0 := fun q hq =>
        hmem_s q (by rw [hsp]; exact List.mem_cons_of_mem _ hq)
      rw [rocLoop, if_pos (by simpa using hs)]
      rw [rocLoop_const _ _ rest s0 hrest]
      simp
  rw [rocCurve_unfold, hpts, hprev, hfp, htp,
    div_self (ne_of_gt hN), div_self (ne_of_gt hP)]
  rfl

/-- C9 (amended): for every input in which all samples carry one identical
score `s` with `s` different from the `DBL_MAX` sentinel, and both classes
are present, the generated ROC curve consists of exactly three points —
but the second point carries threshold `DBL_MAX` (the loop emits the
*previous* score, which at the first sample is still the sentinel), not
`s`; its `fpr` and `tpr` are 0, and no division by zero occurs. -/
theorem roc_all_tied_three_points (scores : List ℚ) (labels : List Bool) (s : ℚ)
    (hlen : scores.length = labels.length)
    (hall : ∀ x ∈ scores, x = s) (hs : s ≠ DBL_MAX)
    (hpos : true ∈ labels) (hneg : false ∈ labels) :
    (saveRocDataToCSV scores labels).curve =
      [⟨DBL_MAX, 0, 0⟩, ⟨DBL_MAX, 0, 0⟩, ⟨s, 1, 1⟩] ∧
    (saveRocDataToCSV scores labels).err = none := by
  have hne := scores_ne_nil_of_mem_labels scores labels hlen hpos
  have hsave := saveRoc_valid scores labels hlen hne
    (posTotal_pos scores labels hlen hpos) (negTotal_pos scores labels hlen hneg)
  rw [hsave]
  exact ⟨rocCurve_all_tied scores labels s hlen hall hs hpos hneg, rfl⟩

/-- Witness for C9 (amended) at `scores = [1, 1, 1]`,
`labels = [true, false, true]`, `s = 1`. -/
theorem roc_all_tied_three_points_witness :
    (saveRocDataToCSV [1, 1, 1] [true, false, true]).curve =
      [⟨DBL_MAX, 0, 0⟩, ⟨DBL_MAX, 0, 0⟩, ⟨(1 : ℚ), 1, 1⟩] ∧
    (saveRocDataToCSV [1, 1, 1] [true, false, true]).err = none :=
  roc_all_tied_three_points [1, 1, 1] [true, false, true] 1 rfl
    (by intro x hx; fin_cases hx <;> rfl) (by norm_num [DBL_MAX])
    (by simp) (by simp)

/-- C9 counterexample: at `scores = [1, 1, 1]`,
`labels = [true, false, true]` (all samples share the score `s = 1`, both
classes present), the second point of the emitted curve carries threshold
`DBL_MAX`, which differs from `s = 1` — refuting the claim that the second
point carries threshold `s`. -/
theorem roc_all_tied_counterexample :
    ((saveRocDataToCSV [1, 1, 1] [true, false, true]).curve.map
      RocPoint.threshold)[1]? = some DBL_MAX ∧ DBL_MAX ≠ 1 := by
  have h := rocCurve_all_tied [1, 1, 1] [true, false, true] 1 rfl
    (by intro x hx; fin_cases hx <;> rfl) (by norm_num [DBL_MAX])
    (by simp) (by simp)
  have hsave := saveRoc_valid [1, 1, 1] [true, false, true] rfl (by simp)
    (posTotal_pos [1, 1, 1] [true, false, true] rfl (by simp))
    (negTotal_pos [1, 1, 1] [true, false, true] rfl (by simp))
  rw [hsave]
  constructor
  · show ((rocCurveOf [1, 1, 1] [true, false, true]).map RocPoint.threshold)[1]? =
      some DBL_MAX
    rw [h]
    rfl
  · norm_num [DBL_MAX]

/-! Confusion-matrix counting lemmas. -/

lemma cmFold (threshold : ℚ) :
    ∀ (l : List (ℚ × Bool)) (acc : ℕ × ℕ × ℕ × ℕ),
      l.foldl (cmStep threshold) acc =
        (acc.1 + l.countP (fun p => p.2 && decide (threshold < p.1)),
         acc.2.1 + l.countP (fun p => !p.2 && decide (threshold < p.1)),
         acc.2.2.1 + l.countP (fun p => !p.2 && !decide (threshold < p.1)),
         acc.2.2.2 + l.countP (fun p => p.2 && !decide (threshold < p.1))) := by
  intro l
  induction l with
  | nil => intro acc; simp
  | cons q rest ih =>
    intro acc
    rw [List.foldl_cons, ih]
    obtain ⟨s, b⟩ := q
    by_cases hlt : threshold < s
    · cases b <;> simp [cmStep, hlt, List.countP_cons] <;> omega
    · cases b <;> simp [cmStep, hlt, List.countP_cons] <;> omega

lemma countP_four_sum (threshold : ℚ) (l : List (ℚ × Bool)) :
    l.countP (fun p => p.2 && decide (threshold < p.1)) +
    l.countP (fun p => !p.2 && decide (threshold < p.1)) +
    l.countP (fun p => !p.2 && !decide (threshold < p.1)) +
    l.countP (fun p => p.2 && !decide (threshold < p.1)) = l.length := by
  induction l with
  | nil => simp
  | cons q t ih =>
    obtain ⟨s, b⟩ := q
    by_cases hlt : threshold < s <;> cases b <;>
      simp [List.countP_cons, hlt] <;> omega

/-- C5: `calculateConfusionMatrix` classifies sample `i` as
predicted-positive iff `scores[i] > threshold` — strict inequality: the
four buckets are exactly the counts of the four predicates below — and in
particular a sample whose score equals the threshold is tallied as a true
negative or false negative, never as a predicted positive. -/
theorem confusion_matrix_strict_threshold (scores : List ℚ) (labels : List Bool)
    (threshold : ℚ) (hlen : scores.length = labels.length) :
    calculateConfusionMatrix scores labels threshold =
      ((scores.zip labels).countP (fun p => p.2 && decide (threshold < p.1)),
       (scores.zip labels).countP (fun p => !p.2 && decide (threshold < p.1)),
       (scores.zip labels).countP (fun p => !p.2 && !decide (threshold < p.1)),
       (scores.zip labels).countP (fun p => p.2 && !decide (threshold < p.1))) ∧
    (∀ lab : Bool, calculateConfusionMatrix [threshold] [lab] threshold =
      if lab then (0, 0, 0, 1) else (0, 0, 1, 0)) := by
  constructor
  · rw [calculateConfusionMatrix, cmFold]
    simp
  · intro lab
    cases lab <;>
      simp [calculateConfusionMatrix, cmStep, List.zip_cons_cons, lt_irrefl]

/-- Witness for C5 at `scores = [1, 2]`, `labels = [true, false]`,
`threshold = 1`. -/
theorem confusion_matrix_strict_threshold_witness :
    calculateConfusionMatrix [1, 2] [true, false] 1 =
      (([(1 : ℚ), 2].zip [true, false]).countP (fun p => p.2 && decide ((1 : ℚ) < p.1)),
       ([(1 : ℚ), 2].zip [true, false]).countP (fun p => !p.2 && decide ((1 : ℚ) < p.1)),
       ([(1 : ℚ), 2].zip [true, false]).countP (fun p => !p.2 && !decide ((1 : ℚ) < p.1)),
       ([(1 : ℚ), 2].zip [true, false]).countP (fun p => p.2 && !decide ((1 : ℚ) < p.1))) ∧
    (∀ lab : Bool, calculateConfusionMatrix [(1 : ℚ)] [lab] 1 =
      if lab then (0, 0, 0, 1) else (0, 0, 1, 0)) :=
  confusion_matrix_strict_threshold [1, 2] [true, false] 1 rfl

/-- C6: for equal-length inputs the four confusion counts (which are
natural numbers, hence non-negative) sum to exactly the number of
samples. -/
theorem confusion_matrix_total (scores : List ℚ) (labels : List Bool)
    (threshold : ℚ) (hlen : scores.length = labels.length) :
    (calculateConfusionMatrix scores labels threshold).1 +
      (calculateConfusionMatrix scores labels threshold).2.1 +
      (calculateConfusionMatrix scores labels threshold).2.2.1 +
      (calculateConfusionMatrix scores labels threshold).2.2.2 = scores.length ∧
    0 ≤ (calculateConfusionMatrix scores labels threshold).1 ∧
    0 ≤ (calculateConfusionMatrix scores labels threshold).2.1 ∧
    0 ≤ (calculateConfusionMatrix scores labels threshold).2.2.1 ∧
    0 ≤ (calculateConfusionMatrix scores labels threshold).2.2.2 := by
  refine ⟨?_, Nat.zero_le _, Nat.zero_le _, Nat.zero_le _, Nat.zero_le _⟩
  have h := countP_four_sum threshold (scores.zip labels)
  rw [List.length_zip, ← hlen, min_self] at h
  rw [calculateConfusionMatrix, cmFold]
  simpa using h

/-- Witness for C6 at `scores = [1, 2, 3]`, `labels = [true, false, true]`,
`threshold = 2`. -/
theorem confusion_matrix_total_witness :
    (calculateConfusionMatrix [1, 2, 3] [true, false, true] 2).1 +
      (calculateConfusionMatrix [1, 2, 3] [true, false, true] 2).2.1 +
      (calculateConfusionMatrix [1, 2, 3] [true, false, true] 2).2.2.1 +
      (calculateConfusionMatrix [1, 2, 3] [true, false, true] 2).2.2.2 =
      ([1, 2, 3] : List ℚ).length ∧
    0 ≤ (calculateConfusionMatrix [1, 2, 3] [true, false, true] 2).1 ∧
    0 ≤ (calculateConfusionMatrix [1, 2, 3] [true, false, true] 2).2.1 ∧
    0 ≤ (calculateConfusionMatrix [1, 2, 3] [true, false, true] 2).2.2.1 ∧
    0 ≤ (calculateConfusionMatrix [1, 2, 3] [true, false, true] 2).2.2.2 :=
  confusion_matrix_total [1, 2, 3] [true, false, true] 2 rfl

/-- C8: on length mismatch or empty input, `evaluateAlgorithm` returns the
explicit error-marker map `{"error": 1.0}` before any computation
proceeds; no partial or best-effort metrics map is produced. -/
theorem evaluate_rejects_invalid_input (scores : List ℚ) (labels : List Bool)
    (threshold : ℚ) (h : scores.length ≠ labels.length ∨ scores = []) :
    evaluateAlgorithm scores labels threshold = [("error", 1)] := by
  rw [evaluateAlgorithm, if_pos]
  rcases h with h | h
  · exact Or.inl h
  · exact Or.inr (by simp [h])

/-- Witness for C8 at `scores = [1, 2, 3]`, `labels = [true, false]`
(length mismatch). -/
theorem evaluate_rejects_invalid_input_witness :
    evaluateAlgorithm [1, 2, 3] [true, false] 0 = [("error", 1)] :=
  evaluate_rejects_invalid_input [1, 2, 3] [true, false] 0 (Or.inl (by simp))

/-! Lookup lemmas for the association-list result maps. -/

lemma lookup_append_right {k : String} {l₁ l₂ : List (String × ℚ)}
    (h : List.lookup k l₁ = none) :
    List.lookup k (l₁ ++ l₂) = List.lookup k l₂ := by
  induction l₁ with
  | nil => simp
  | cons a t ih =>
    obtain ⟨k0, v⟩ := a
    rw [List.cons_append]
    by_cases hk : k == k0
    · rw [List.lookup, hk] at h
      simp at h
    · rw [Bool.not_eq_true] at hk
      rw [List.lookup, hk] at h
      rw [List.lookup, hk]
      exact ih h

lemma lookup_metrics_threshold (cm : ℕ × ℕ × ℕ × ℕ) :
    List.lookup "threshold" (calculateMetrics cm) = none := rfl

lemma lookup_metrics_auc (cm : ℕ × ℕ × ℕ × ℕ) :
    List.lookup "auc" (calculateMetrics cm) = none := rfl

lemma lookup_metrics_error (cm : ℕ × ℕ × ℕ × ℕ) :
    List.lookup "error" (calculateMetrics cm) = none := rfl

lemma foldl_add_fst : ∀ (l : List (ℚ × Bool)) (a : ℚ),
    l.foldl (fun acc p => acc + p.1) a = a + (l.map (fun p => p.1)).sum := by
  intro l
  induction l with
  | nil => intro a; simp
  | cons q t ih =>
    intro a
    rw [List.foldl_cons, ih, List.map_cons, List.sum_cons]
    ring

lemma classAvg_eq (l : List (ℚ × Bool)) (pred : ℚ × Bool → Bool) :
    (if 0 < l.countP pred
     then (l.filter pred).foldl (fun a p => a + p.1) 0 / ((l.countP pred : ℕ) : ℚ)
     else (l.filter pred).foldl (fun a p => a + p.1) 0) =
    (if ((l.filter pred).map (fun p => p.1)).length = 0 then 0
     else ((l.filter pred).map (fun p => p.1)).sum /
          (((l.filter pred).map (fun p => p.1)).length : ℚ)) := by
  rw [foldl_add_fst, zero_add, List.length_map, List.countP_eq_length_filter]
  by_cases h : (l.filter pred).length = 0
  · rw [if_neg (by omega), if_pos h]
    rw [List.length_eq_zero.1 h]
    simp
  · rw [if_pos (Nat.pos_of_ne_zero h), if_neg h]

/-- C7: when a negative threshold (the "no threshold supplied" sentinel)
is passed with a valid non-empty input, the resolved threshold equals the
midpoint of the per-class mean scores (an empty class contributing mean
`0.0`); that resolved value is used for the classification and is reported
under the key `"threshold"` in the result. -/
theorem default_threshold_midpoint (scores : List ℚ) (labels : List Bool)
    (t : ℚ) (hlen : scores.length = labels.length) (hne : scores ≠ [])
    (ht : t < 0) :
    resolveThreshold scores labels t =
      (specClassMean scores labels true + specClassMean scores labels false) / 2 ∧
    List.lookup "threshold" (evaluateAlgorithm scores labels t) =
      some (resolveThreshold scores labels t) ∧
    evaluateAlgorithm scores labels t =
      calculateMetrics
          (calculateConfusionMatrix scores labels (resolveThreshold scores labels t)) ++
        [("threshold", resolveThreshold scores labels t),
         ("auc", (saveRocDataToCSV scores labels).auc)] := by
  have hvalid : ¬(scores.length ≠ labels.length ∨ scores.isEmpty = true) := by
    rw [not_or]
    constructor
    · simpa using hlen
    · simpa [List.isEmpty_iff] using hne
  have hfil_t : (scores.zip labels).filter (fun p => p.2 == true) =
      (scores.zip labels).filter (fun p => p.2) := by
    apply List.filter_congr
    intro p _
    cases p.2 <;> rfl
  have hfil_f : (scores.zip labels).filter (fun p => p.2 == false) =
      (scores.zip labels).filter (fun p => !p.2) := by
    apply List.filter_congr
    intro p _
    cases p.2 <;> rfl
  refine ⟨?_, ?_, ?_⟩
  · rw [resolveThreshold, if_pos ht]
    have hpos_eq := classAvg_eq (scores.zip labels) (fun p => p.2)
    have hneg_eq := classAvg_eq (scores.zip labels) (fun p => !p.2)
    rw [specClassMean, specClassMean]
    simp only [hfil_t, hfil_f]
    rw [← hpos_eq, ← hneg_eq]
  · rw [evaluateAlgorithm, if_neg hvalid]
    rw [lookup_append_right (lookup_metrics_threshold _)]
    rfl
  · rw [evaluateAlgorithm, if_neg hvalid]

/-- Witness for C7 at `scores = [1, 2, 4]`, `labels = [true, true, false]`,
`threshold = -1`. -/
theorem default_threshold_midpoint_witness :
    resolveThreshold [1, 2, 4] [true, true, false] (-1) =
      (specClassMean [1, 2, 4] [true, true, false] true +
        specClassMean [1, 2, 4] [true, true, false] false) / 2 ∧
    List.lookup "threshold" (evaluateAlgorithm [1, 2, 4] [true, true, false] (-1)) =
      some (resolveThreshold [1, 2, 4] [true, true, false] (-1)) ∧
    evaluateAlgorithm [1, 2, 4] [true, true, false] (-1) =
      calculateMetrics
          (calculateConfusionMatrix [1, 2, 4] [true, true, false]
            (resolveThreshold [1, 2, 4] [true, true, false] (-1))) ++
        [("threshold", resolveThreshold [1, 2, 4] [true, true, false] (-1)),
         ("auc", (saveRocDataToCSV [1, 2, 4] [true, true, false]).auc)] :=
  default_threshold_midpoint [1, 2, 4] [true, true, false] (-1) rfl (by simp)
    (by norm_num)

/-! Metric-formula extraction and bounds (C4). -/

lemma metrics_true_positives (tp fp tn fn : ℕ) :
    List.lookup "true_positives" (calculateMetrics (tp, fp, tn, fn)) = some (tp : ℚ) := rfl

lemma metrics_false_positives (tp fp tn fn : ℕ) :
    List.lookup "false_positives" (calculateMetrics (tp, fp, tn, fn)) = some (fp : ℚ) := rfl

lemma metrics_true_negatives (tp fp tn fn : ℕ) :
    List.lookup "true_negatives" (calculateMetrics (tp, fp, tn, fn)) = some (tn : ℚ) := rfl

lemma metrics_false_negatives (tp fp tn fn : ℕ) :
    List.lookup "false_negatives" (calculateMetrics (tp, fp, tn, fn)) = some (fn : ℚ) := rfl

lemma metrics_accuracy (tp fp tn fn : ℕ) :
    List.lookup "accuracy" (calculateMetrics (tp, fp, tn, fn)) =
      some (specAccuracy tp fp tn fn) := by
  have h : List.lookup "accuracy" (calculateMetrics (tp, fp, tn, fn)) =
      some (if ((tp : ℚ) + fp + tn + fn) > 0
            then ((tp : ℚ) + tn) / ((tp : ℚ) + fp + tn + fn) else 0) := rfl
  rw [h, specAccuracy]
  by_cases hc : tp + fp + tn + fn > 0
  · rw [if_pos (by exact_mod_cast hc), if_pos hc]
  · rw [if_neg (by exact_mod_cast hc), if_neg hc]

lemma precision_code_eq (tp fp : ℕ) :
    (if ((tp : ℚ) + fp) > 0 then (tp : ℚ) / ((tp : ℚ) + fp) else 0) =
      specPrecision tp fp := by
  rw [specPrecision]
  by_cases hc : tp + fp > 0
  · rw [if_pos (by exact_mod_cast hc), if_pos hc]
  · rw [if_neg (by exact_mod_cast hc), if_neg hc]

lemma recall_code_eq (tp fn : ℕ) :
    (if ((tp : ℚ) + fn) > 0 then (tp : ℚ) / ((tp : ℚ) + fn) else 0) =
      specRecall tp fn := by
  rw [specRecall]
  by_cases hc : tp + fn > 0
  · rw [if_pos (by exact_mod_cast hc), if_pos hc]
  · rw [if_neg (by exact_mod_cast hc), if_neg hc]

lemma metrics_precision (tp fp tn fn : ℕ) :
    List.lookup "precision" (calculateMetrics (tp, fp, tn, fn)) =
      some (specPrecision tp fp) := by
  have h : List.lookup "precision" (calculateMetrics (tp, fp, tn, fn)) =
      some (if ((tp : ℚ) + fp) > 0 then (tp : ℚ) / ((tp : ℚ) + fp) else 0) := rfl
  rw [h, precision_code_eq]

lemma metrics_recall (tp fp tn fn : ℕ) :
    List.lookup "recall" (calculateMetrics (tp, fp, tn, fn)) =
      some (specRecall tp fn) := by
  have h : List.lookup "recall" (calculateMetrics (tp, fp, tn, fn)) =
      some (if ((tp : ℚ) + fn) > 0 then (tp : ℚ) / ((tp : ℚ) + fn) else 0) := rfl
  rw [h, recall_code_eq]

lemma metrics_specificity (tp fp tn fn : ℕ) :
    List.lookup "specificity" (calculateMetrics (tp, fp, tn, fn)) =
      some (specSpecificity tn fp) := by
  have h : List.lookup "specificity" (calculateMetrics (tp, fp, tn, fn)) =
      some (if ((tn : ℚ) + fp) > 0 then (tn : ℚ) / ((tn : ℚ) + fp) else 0) := rfl
  rw [h, specSpecificity]
  by_cases hc : tn + fp > 0
  · rw [if_pos (by exact_mod_cast hc), if_pos hc]
  · rw [if_neg (by exact_mod_cast hc), if_neg hc]

lemma metrics_f1 (tp fp tn fn : ℕ) :
    List.lookup "f1_score" (calculateMetrics (tp, fp, tn, fn)) =
      some (specF1 tp fp fn) := by
  have h : List.lookup "f1_score" (calculateMetrics (tp, fp, tn, fn)) =
      some (if (if ((tp : ℚ) + fp) > 0 then (tp : ℚ) / ((tp : ℚ) + fp) else 0) +
               (if ((tp : ℚ) + fn) > 0 then (tp : ℚ) / ((tp : ℚ) + fn) else 0) > 0
            then 2 * (if ((tp : ℚ) + fp) > 0 then (tp : ℚ) / ((tp : ℚ) + fp) else 0) *
                   (if ((tp : ℚ) + fn) > 0 then (tp : ℚ) / ((tp : ℚ) + fn) else 0) /
                 ((if ((tp : ℚ) + fp) > 0 then (tp : ℚ) / ((tp : ℚ) + fp) else 0) +
                  (if ((tp : ℚ) + fn) > 0 then (tp : ℚ) / ((tp : ℚ) + fn) else 0))
            else 0) := rfl
  rw [h, precision_code_eq, recall_code_eq, specF1]

lemma specAccuracy_bounds (tp fp tn fn : ℕ) :
    0 ≤ specAccuracy tp fp tn fn ∧ specAccuracy tp fp tn fn ≤ 1 := by
  rw [specAccuracy]
  split_ifs with h
  · constructor
    · positivity
    · rw [div_le_one (by exact_mod_cast h)]
      exact_mod_cast (by omega : tp + tn ≤ tp + fp + tn + fn)
  · simp

lemma specPrecision_bounds (tp fp : ℕ) :
    0 ≤ specPrecision tp fp ∧ specPrecision tp fp ≤ 1 := by
  rw [specPrecision]
  split_ifs with h
  · constructor
    · positivity
    · rw [div_le_one (by exact_mod_cast h)]
      exact_mod_cast (by omega : tp ≤ tp + fp)
  · simp

lemma specRecall_bounds (tp fn : ℕ) :
    0 ≤ specRecall tp fn ∧ specRecall tp fn ≤ 1 := by
  rw [specRecall]
  split_ifs with h
  · constructor
    · positivity
    · rw [div_le_one (by exact_mod_cast h)]
      exact_mod_cast (by omega : tp ≤ tp + fn)
  · simp

lemma specSpecificity_bounds (tn fp : ℕ) :
    0 ≤ specSpecificity tn fp ∧ specSpecificity tn fp ≤ 1 := by
  rw [specSpecificity]
  split_ifs with h
  · constructor
    · positivity
    · rw [div_le_one (by exact_mod_cast h)]
      exact_mod_cast (by omega : tn ≤ tn + fp)
  · simp

lemma specF1_bounds (tp fp fn : ℕ) :
    0 ≤ specF1 tp fp fn ∧ specF1 tp fp fn ≤ 1 := by
  obtain ⟨hp0, hp1⟩ := specPrecision_bounds tp fp
  obtain ⟨hr0, hr1⟩ := specRecall_bounds tp fn
  rw [specF1]
  split_ifs with h
  · constructor
    · apply div_nonneg _ (le_of_lt h)
      nlinarith [mul_nonneg hp0 hr0]
    · rw [div_le_one h]
      nlinarith [mul_nonneg (sub_nonneg.2 hp1) hr0,
        mul_nonneg (sub_nonneg.2 hr1) hp0]
  · simp

/-- C4: `calculateMetrics` returns the four raw counts together with the
guarded ratios of the specification, each derived ratio lying in `[0, 1]`.
In the exact rational model no value can be NaN or infinite; the zero
guards below are exactly the code's protection against dividing by zero. -/
theorem calculateMetrics_formulas (tp fp tn fn : ℕ) :
    List.lookup "true_positives" (calculateMetrics (tp, fp, tn, fn)) = some (tp : ℚ) ∧
    List.lookup "false_positives" (calculateMetrics (tp, fp, tn, fn)) = some (fp : ℚ) ∧
    List.lookup "true_negatives" (calculateMetrics (tp, fp, tn, fn)) = some (tn : ℚ) ∧
    List.lookup "false_negatives" (calculateMetrics (tp, fp, tn, fn)) = some (fn : ℚ) ∧
    List.lookup "accuracy" (calculateMetrics (tp, fp, tn, fn)) =
      some (specAccuracy tp fp tn fn) ∧
    List.lookup "precision" (calculateMetrics (tp, fp, tn, fn)) =
      some (specPrecision tp fp) ∧
    List.lookup "recall" (calculateMetrics (tp, fp, tn, fn)) =
      some (specRecall tp fn) ∧
    List.lookup "specificity" (calculateMetrics (tp, fp, tn, fn)) =
      some (specSpecificity tn fp) ∧
    List.lookup "f1_score" (calculateMetrics (tp, fp, tn, fn)) =
      some (specF1 tp fp fn) ∧
    (0 ≤ specAccuracy tp fp tn fn ∧ specAccuracy tp fp tn fn ≤ 1) ∧
    (0 ≤ specPrecision tp fp ∧ specPrecision tp fp ≤ 1) ∧
    (0 ≤ specRecall tp fn ∧ specRecall tp fn ≤ 1) ∧
    (0 ≤ specSpecificity tn fp ∧ specSpecificity tn fp ≤ 1) ∧
    (0 ≤ specF1 tp fp fn ∧ specF1 tp fp fn ≤ 1) :=
  ⟨metrics_true_positives tp fp tn fn, metrics_false_positives tp fp tn fn,
   metrics_true_negatives tp fp tn fn, metrics_false_negatives tp fp tn fn,
   metrics_accuracy tp fp tn fn, metrics_precision tp fp tn fn,
   metrics_recall tp fp tn fn, metrics_specificity tp fp tn fn,
   metrics_f1 tp fp tn fn, specAccuracy_bounds tp fp tn fn,
   specPrecision_bounds tp fp, specRecall_bounds tp fn,
   specSpecificity_bounds tn fp, specF1_bounds tp fp fn⟩

/-! Behaviour on a degenerate label set (C1). -/

lemma degenerate_saveRoc (scores : List ℚ) (labels : List Bool)
    (hlen : scores.length = labels.length) (hne : scores ≠ [])
    (hdeg : (∀ b ∈ labels, b = true) ∨ (∀ b ∈ labels, b = false)) :
    saveRocDataToCSV scores labels =
      ⟨some "Error: Data must contain both positive and negative samples", [], 0⟩ := by
  have h1 : ¬(scores.length ≠ labels.length ∨ scores.isEmpty = true) := by
    rw [not_or]
    constructor
    · simpa using hlen
    · simpa [List.isEmpty_iff] using hne
  have h2 : posTotal scores labels = 0 ∨ negTotal scores labels = 0 := by
    rcases hdeg with hall | hall
    · right
      unfold negTotal
      norm_cast
      rw [List.countP_eq_zero]
      intro p hp
      obtain ⟨a, b⟩ := p
      have hbmem : b ∈ labels :=
        (List.of_mem_zip ((sortedPairs_perm scores labels).mem_iff.1 hp)).2
      simp [hall b hbmem]
    · left
      unfold posTotal
      norm_cast
      rw [List.countP_eq_zero]
      intro p hp
      obtain ⟨a, b⟩ := p
      have hbmem : b ∈ labels :=
        (List.of_mem_zip ((sortedPairs_perm scores labels).mem_iff.1 hp)).2
      simp [hall b hbmem]
  rw [saveRocDataToCSV, if_neg h1, if_pos h2]

lemma degenerate_eval (scores : List ℚ) (labels : List Bool) (t : ℚ)
    (hlen : scores.length = labels.length) (hne : scores ≠ [])
    (hdeg : (∀ b ∈ labels, b = true) ∨ (∀ b ∈ labels, b = false)) :
    evaluateAlgorithm scores labels t =
      calculateMetrics
          (calculateConfusionMatrix scores labels (resolveThreshold scores labels t)) ++
        [("threshold", resolveThreshold scores labels t), ("auc", 0)] := by
  have h1 : ¬(scores.length ≠ labels.length ∨ scores.isEmpty = true) := by
    rw [not_or]
    constructor
    · simpa using hlen
    · simpa [List.isEmpty_iff] using hne
  rw [evaluateAlgorithm, if_neg h1,
    degenerate_saveRoc scores labels hlen hne hdeg]

/-- C1 (amended): on a valid-length, non-empty input whose labels are all
identical, the ROC stage does report the degenerate label set (a message
on `cerr`) but then returns AUC `0.0` in-band with an empty curve; the
orchestrator does *not* propagate any error: it returns the full metrics
map — computed metrics mixed with the failed ROC stage's `auc = 0` — and
its result carries no `"error"` marker. -/
theorem degenerate_labels_mixed_result (scores : List ℚ) (labels : List Bool)
    (t : ℚ) (hlen : scores.length = labels.length) (hne : scores ≠ [])
    (hdeg : (∀ b ∈ labels, b = true) ∨ (∀ b ∈ labels, b = false)) :
    (saveRocDataToCSV scores labels).err =
      some "Error: Data must contain both positive and negative samples" ∧
    (saveRocDataToCSV scores labels).curve = [] ∧
    (saveRocDataToCSV scores labels).auc = 0 ∧
    evaluateAlgorithm scores labels t =
      calculateMetrics
          (calculateConfusionMatrix scores labels (resolveThreshold scores labels t)) ++
        [("threshold", resolveThreshold scores labels t), ("auc", 0)] ∧
    List.lookup "error" (evaluateAlgorithm scores labels t) = none ∧
    List.lookup "auc" (evaluateAlgorithm scores labels t) = some 0 := by
  have hs := degenerate_saveRoc scores labels hlen hne hdeg
  have he := degenerate_eval scores labels t hlen hne hdeg
  refine ⟨by rw [hs], by rw [hs], by rw [hs], he, ?_, ?_⟩
  · rw [he, lookup_append_right (lookup_metrics_error _)]
    rfl
  · rw [he, lookup_append_right (lookup_metrics_auc _)]
    rfl

/-- Witness for C1 (amended) at `scores = [1, 2]`, `labels = [true, true]`,
`threshold = -1`. -/
theorem degenerate_labels_mixed_result_witness :
    (saveRocDataToCSV [1, 2] [true, true]).err =
      some "Error: Data must contain both positive and negative samples" ∧
    (saveRocDataToCSV [1, 2] [true, true]).curve = [] ∧
    (saveRocDataToCSV [1, 2] [true, true]).auc = 0 ∧
    evaluateAlgorithm [1, 2] [true, true] (-1) =
      calculateMetrics
          (calculateConfusionMatrix [1, 2] [true, true]
            (resolveThreshold [1, 2] [true, true] (-1))) ++
        [("threshold", resolveThreshold [1, 2] [true, true] (-1)), ("auc", 0)] ∧
    List.lookup "error" (evaluateAlgorithm [1, 2] [true, true] (-1)) = none ∧
    List.lookup "auc" (evaluateAlgorithm [1, 2] [true, true] (-1)) = some 0 :=
  degenerate_labels_mixed_result [1, 2] [true, true] (-1) rfl (by simp)
    (Or.inl (by simp))

/-- C1 counterexample: at `scores = [1, 2]`, `labels = [true, true]`
(degenerate label set) and the default-threshold sentinel `-1`, the
orchestrator does not return the error marker: the result map is not
`[("error", 1)]`, carries no `"error"` key, and is a mix — fully computed
metrics (`accuracy = 1`) next to the failed ROC stage's `auc = 0`. -/
theorem degenerate_labels_counterexample :
    evaluateAlgorithm [1, 2] [true, true] (-1) ≠ [("error", 1)] ∧
    List.lookup "error" (evaluateAlgorithm [1, 2] [true, true] (-1)) = none ∧
    List.lookup "auc" (evaluateAlgorithm [1, 2] [true, true] (-1)) = some 0 ∧
    List.lookup "accuracy" (evaluateAlgorithm [1, 2] [true, true] (-1)) = some 1 := by
  have he := degenerate_eval [1, 2] [true, true] (-1) rfl (by simp) (Or.inl (by simp))
  have hθ : resolveThreshold [1, 2] [true, true] (-1) = 3 / 4 := by
    rw [resolveThreshold, if_pos (by norm_num)]
    norm_num [List.zip_cons_cons]
  have hcm : calculateConfusionMatrix [1, 2] [true, true] (3 / 4) = (2, 0, 0, 0) := by
    rw [calculateConfusionMatrix, List.zip_cons_cons]
    norm_num [cmStep]
  refine ⟨?_, ?_, ?_, ?_⟩
  · rw [he]
    intro hcontra
    have hlength := congrArg List.length hcontra
    rw [List.length_append] at hlength
    simp [calculateMetrics] at hlength
  · rw [he, lookup_append_right (lookup_metrics_error _)]
    rfl
  · rw [he, lookup_append_right (lookup_metrics_auc _)]
    rfl
  · rw [he, hθ, hcm]
    rw [show List.lookup "accuracy" (calculateMetrics (2, 0, 0, 0) ++
        [("threshold", (3 : ℚ) / 4), ("auc", 0)]) =
      List.lookup "accuracy" (calculateMetrics (2, 0, 0, 0)) from rfl]
    rw [metrics_accuracy]
    norm_num [specAccuracy]

end IDSEval
